import Mathlib

/-!
Verification of the NMS dispatch family in
`src/mmdet/ops/nms/nms_wrapper.py` (functions `nms`, `soft_nms`,
`oks_nms` — defined twice, verbatim — and `oks_nms_vis`).

The wrapper module itself is embedded faithfully from the source.  The
suppression backends it imports (`nms_cpu`, `nms_cuda`, `soft_nms_cpu`,
`oks_nms_py`, `oks_nms_cpu`, `oks_nms_cuda`, `oks_nms_vis_cuda`) are not
part of the provided sources; they are modelled from the specification
(sections 4.1–4.4), as noted in their doc comments.  Scalars are
rationals; the transcendental falloff `exp(-d)` of the OKS and Gaussian
decay formulas is modelled by a computable surrogate (see `falloff`).
-/

namespace NmsWrapper

/-- Element datatype of a torch tensor or numpy array (the dtypes the
wrapper can meet; only their identity matters to the wrapper). -/
inductive DType
  | f16 | f32 | f64
deriving DecidableEq, Repr

/-- Residency of a torch tensor: host (`cpu`) or accelerator (`cuda:i`). -/
inductive Device
  | cpu
  | cuda (id : Nat)
deriving DecidableEq, Repr

/-- Torch `t.is_cuda` on a tensor. -/
def Device.isCuda : Device → Bool
  | .cpu => false
  | .cuda _ => true

/-- A torch tensor holding one candidate per row. -/
structure Tensor where
  device : Device
  dtype : DType
  data : List (List ℚ)
deriving DecidableEq, Repr

/-- A numpy array holding one candidate per row. -/
structure NDArray where
  dtype : DType
  data : List (List ℚ)
deriving DecidableEq, Repr

/-- A Python value passed as the candidate-set argument: a torch tensor,
a numpy array, or anything else (carrying the name `type(x)` would
print). -/
inductive Dets
  | tensor (t : Tensor)
  | ndarray (a : NDArray)
  | other (ty : String)
deriving DecidableEq, Repr

/-- The candidate rows carried by the argument (empty for a non-container). -/
def Dets.rows : Dets → List (List ℚ)
  | .tensor t => t.data
  | .ndarray a => a.data
  | .other _ => []

/-- The element dtype carried by the argument (`f32` for a non-container;
never read in that case). -/
def Dets.dtype : Dets → DType
  | .tensor t => t.dtype
  | .ndarray a => a.dtype
  | .other _ => .f32

/-- Whether the argument is a torch tensor. -/
def Dets.isTensor : Dets → Bool
  | .tensor _ => true
  | _ => false

/-- Whether the argument is a numpy array. -/
def Dets.isNdarray : Dets → Bool
  | .ndarray _ => true
  | _ => false

/-- Whether the argument is one of the two supported containers. -/
def Dets.isContainer : Dets → Bool
  | .tensor _ => true
  | .ndarray _ => true
  | .other _ => false

/-- The index sequence a wrapper returns: a torch long tensor (tensor
input) or a numpy int64 array (array input). -/
inductive Inds
  | tens (device : Device) (l : List Nat)
  | np (l : List Nat)
deriving DecidableEq, Repr

/-- The indices themselves, forgetting the representation. -/
def Inds.toList : Inds → List Nat
  | .tens _ l => l
  | .np l => l

/-- Exceptions the wrapper raises. -/
inductive PyError
  | typeError (msg : String)
  | valueError (msg : String)
deriving DecidableEq, Repr

/-- The suppression backends the wrapper module imports. -/
inductive Backend
  | nmsCpu | nmsCuda | softNmsCpu
  | oksNmsCpu | oksNmsCuda | oksNmsPy | oksNmsVisCuda
deriving DecidableEq, Repr

/-- Outcome of one wrapper call: the returned pair (or the exception
raised), together with the sequence of suppression-backend invocations
the call performed. -/
structure CallOut where
  res : Except PyError (Dets × Inds)
  log : List Backend
deriving Repr

end NmsWrapper

namespace NmsWrapper

/-- Modelled from the spec (§4.1, §4.3): the transcendental falloff
`exp(-d)` used by the OKS keypoint term and the Gaussian decay.  The
backend sources are not under `src/`; to keep the model executable over
`ℚ`, `exp(-d)` is modelled by a computable surrogate that agrees with
`exp` at `d = 0` (value `1`), is positive, at most `1`, and strictly
decreasing for `d ≥ 0` — the properties the spec's suppression decisions
rely on. -/
def falloff (d : ℚ) : ℚ := 1 / (1 + d)

/-- Score of a box row `[x1, y1, x2, y2, score]`. -/
def boxScore (r : List ℚ) : ℚ := r.getD 4 0

/-- Modelled from the spec (§4.1): pairwise Intersection-over-Union of
two box rows — intersection area over union area, `0` when the boxes do
not overlap or the union is not positive. -/
def iou (a b : List ℚ) : ℚ :=
  let ax1 := a.getD 0 0; let ay1 := a.getD 1 0
  let ax2 := a.getD 2 0; let ay2 := a.getD 3 0
  let bx1 := b.getD 0 0; let by1 := b.getD 1 0
  let bx2 := b.getD 2 0; let by2 := b.getD 3 0
  let iw := max (min ax2 bx2 - max ax1 bx1) 0
  let ih := max (min ay2 by2 - max ay1 by1) 0
  let inter := iw * ih
  let areaA := max (ax2 - ax1) 0 * max (ay2 - ay1) 0
  let areaB := max (bx2 - bx1) 0 * max (by2 - by1) 0
  let uni := areaA + areaB - inter
  if uni ≤ 0 then 0 else inter / uni

/-- Insert a candidate into a descending-score list, after every element
of score at least its own (so that a stable descending sort results). -/
def insertDesc (s : List ℚ → ℚ) (x : Nat × List ℚ) :
    List (Nat × List ℚ) → List (Nat × List ℚ)
  | [] => [x]
  | y :: ys => if s y.2 < s x.2 then x :: y :: ys else y :: insertDesc s x ys

/-- Stable sort by descending score (ties keep original order), as the
spec (§4.2) requires of the suppression backends. -/
def sortDesc (s : List ℚ → ℚ) : List (Nat × List ℚ) → List (Nat × List ℚ)
  | [] => []
  | x :: xs => insertDesc s x (sortDesc s xs)

/-- Remove every candidate whose pairwise measure against the kept row
exceeds the threshold (the spec's removal step, §4.2/§4.4). -/
def pruneOver (m : List ℚ → List ℚ → ℚ) (thr : ℚ) (kept : List ℚ) :
    List (Nat × List ℚ) → List (Nat × List ℚ)
  | [] => []
  | p :: ps =>
      if thr < m kept p.2 then pruneOver m thr kept ps
      else p :: pruneOver m thr kept ps

/-- Modelled from the spec (§4.2, §4.4): the greedy suppression loop.
Takes the highest-scoring remaining candidate, keeps its index, and
removes every remaining candidate whose pairwise measure against the
kept one exceeds the threshold.  `fuel` bounds the recursion; one
element is consumed per step, so `fuel = length` is exact. -/
def greedyFuel (m : List ℚ → List ℚ → ℚ) (thr : ℚ) :
    Nat → List (Nat × List ℚ) → List Nat
  | 0, _ => []
  | _, [] => []
  | fuel+1, x :: rest =>
      x.1 :: greedyFuel m thr fuel (pruneOver m thr x.2 rest)

/-- Greedy suppression of a candidate list under pairwise measure `m`:
stable descending sort by score, then the greedy loop. -/
def greedy (m : List ℚ → List ℚ → ℚ) (s : List ℚ → ℚ) (thr : ℚ)
    (rows : List (List ℚ)) : List Nat :=
  let l := sortDesc s rows.enum
  greedyFuel m thr l.length l

/-- Modelled from the spec (§4.2): the hard-NMS backend shared by
`nms_cpu` and `nms_cuda` (the spec requires the accelerated backend to
produce the identical kept set and ordering as the reference
algorithm). -/
def nmsBackend (rows : List (List ℚ)) (thr : ℚ) : List Nat :=
  greedy iou boxScore thr rows

/-- Modelled from the spec (§3): a keypoint-candidate row carries the
score, the area normalizer, and the flattened `(x, y, visibility)`
triples: `[score, area, x1, y1, v1, …, xK, yK, vK]` (the backend
sources fixing the true layout are not under `src/`).  Score of such a
row. -/
def kptScore (r : List ℚ) : ℚ := r.getD 0 0

/-- Area normalizer of a keypoint-candidate row. -/
def kptArea (r : List ℚ) : ℚ := r.getD 1 0

/-- Chunk a flat list into `(x, y, visibility)` triples. -/
def triples : List ℚ → List (ℚ × ℚ × ℚ)
  | x :: y :: v :: rest => (x, y, v) :: triples rest
  | _ => []

/-- The keypoints of a keypoint-candidate row. -/
def kptList (r : List ℚ) : List (ℚ × ℚ × ℚ) := triples (r.drop 2)

/-- Modelled from the spec (§4.1): one keypoint's OKS contribution —
squared Euclidean distance normalized by `2 * area * sigma^2`, passed
through the exponential falloff. -/
def oksTerm (area σ : ℚ) (pa pb : ℚ × ℚ × ℚ) : ℚ :=
  falloff (((pa.1 - pb.1) ^ 2 + (pa.2.1 - pb.2.1) ^ 2) / (2 * area * σ ^ 2))

/-- Average of a list of rationals, defined as `0` on the empty list
(the spec's policy for the no-common-visible-keypoint case, §4.1). -/
def avg0 (l : List ℚ) : ℚ := if l = [] then 0 else l.sum / l.length

/-- Modelled from the spec (§4.1): the OKS term list under the symmetric
visibility rule — a keypoint contributes only when both candidates
report visibility `> 0`. -/
def oksTermsSym (area : ℚ) :
    List (ℚ × ℚ × ℚ) → List (ℚ × ℚ × ℚ) → List ℚ → List ℚ
  | pa :: ka, pb :: kb, σ :: σs =>
      if 0 < pa.2.2 ∧ 0 < pb.2.2 then
        oksTerm area σ pa pb :: oksTermsSym area ka kb σs
      else oksTermsSym area ka kb σs
  | _, _, _ => []

/-- Modelled from the spec (§4.1): plain OKS between the kept candidate
`a` and candidate `b` — terms averaged only over keypoints where both
candidates report visibility `> 0`, using the kept candidate's area
normalizer; `0` when no keypoint qualifies. -/
def oksMeasure (σs : List ℚ) (a b : List ℚ) : ℚ :=
  avg0 (oksTermsSym (kptArea a) (kptList a) (kptList b) σs)

/-- Modelled from the spec (§4.4): the OKS term list under the
asymmetric gate — a keypoint is skipped exactly when its visibility on
the already-kept candidate `a` is below `vis_thr`, even if the other
candidate reports it visible. -/
def oksTermsVis (area vis_thr : ℚ) :
    List (ℚ × ℚ × ℚ) → List (ℚ × ℚ × ℚ) → List ℚ → List ℚ
  | pa :: ka, pb :: kb, σ :: σs =>
      if pa.2.2 < vis_thr then oksTermsVis area vis_thr ka kb σs
      else oksTerm area σ pa pb :: oksTermsVis area vis_thr ka kb σs
  | _, _, _ => []

/-- Modelled from the spec (§4.4): visibility-gated OKS between the kept
candidate `a` and candidate `b`; `0` when no keypoint qualifies. -/
def oksVisMeasure (σs : List ℚ) (vis_thr : ℚ) (a b : List ℚ) : ℚ :=
  avg0 (oksTermsVis (kptArea a) vis_thr (kptList a) (kptList b) σs)

/-- Modelled from the spec (§4.4): the ungated OKS-NMS backend shared by
`oks_nms_py`, `oks_nms_cpu` and `oks_nms_cuda` (treated as one canonical
implementation, as the spec's design notes direct). -/
def oksNmsBackend (rows : List (List ℚ)) (thr : ℚ) (σs : List ℚ) : List Nat :=
  greedy (oksMeasure σs) kptScore thr rows

/-- Modelled from the spec (§4.4): the visibility-gated OKS-NMS backend
`oks_nms_vis_cuda`. -/
def oksNmsVisBackend (rows : List (List ℚ)) (thr vis_thr : ℚ) (σs : List ℚ) :
    List Nat :=
  greedy (oksVisMeasure σs vis_thr) kptScore thr rows

/-- Modelled from the spec (§4.3): one soft-NMS decay step applied to a
remaining row given the just-selected top row.  Method code 1 (linear):
multiply the score by `(1 - iou)` when `iou` exceeds the threshold;
method code 2 (gaussian): multiply by the exponential falloff of
`iou^2 / sigma` unconditionally. -/
def decayScore (code : Nat) (iou_thr sigma : ℚ) (top r : List ℚ) : ℚ :=
  let v := iou top r
  let sc := boxScore r
  if code = 1 then (if iou_thr < v then sc * (1 - v) else sc)
  else sc * falloff (v ^ 2 / sigma)

/-- The decayed row: the score entry is overwritten in place. -/
def decaySoft (code : Nat) (iou_thr sigma : ℚ) (top r : List ℚ) : List ℚ :=
  r.set 4 (decayScore code iou_thr sigma top r)

/-- Permanently discard candidates whose score fell below `min_score`
(the spec's discard step, §4.3). -/
def dropLow (min_score : ℚ) : List (Nat × List ℚ) → List (Nat × List ℚ)
  | [] => []
  | p :: ps =>
      if boxScore p.2 < min_score then dropLow min_score ps
      else p :: dropLow min_score ps

/-- Modelled from the spec (§4.3): the soft-NMS loop.  Each step
re-sorts by (current) descending score, finalizes the top candidate,
decays every remaining score, and permanently discards candidates whose
score falls below `min_score`.  `fuel = length` is exact since each step
consumes one element. -/
def softFuel (code : Nat) (iou_thr sigma min_score : ℚ) :
    Nat → List (Nat × List ℚ) → List (Nat × List ℚ)
  | 0, _ => []
  | fuel+1, l =>
    match sortDesc boxScore l with
    | [] => []
    | top :: rest =>
        top :: softFuel code iou_thr sigma min_score fuel
          (dropLow min_score
            (rest.map (fun p => (p.1, decaySoft code iou_thr sigma top.2 p.2))))

/-- Modelled from the spec (§4.3): the `soft_nms_cpu` backend — returns
the finalized rows (with their decayed scores in place) and their
original 0-based indices, in selection order. -/
def softNmsCpuBackend (rows : List (List ℚ)) (iou_thr : ℚ) (code : Nat)
    (sigma min_score : ℚ) : List (List ℚ) × List Nat :=
  let out := softFuel code iou_thr sigma min_score rows.length rows.enum
  (out.map (fun p => p.2), out.map (fun p => p.1))

/-- Row selection `x[inds, :]` on the underlying data. -/
def selectRows (rows : List (List ℚ)) (inds : List Nat) : List (List ℚ) :=
  inds.map (fun i => rows.getD i [])

/-- Indexing `dets[inds, :]` — fancy-indexing the original argument, which keeps
its container kind, device and dtype. -/
def indexDets : Dets → List Nat → Dets
  | .tensor t, inds => .tensor ⟨t.device, t.dtype, selectRows t.data inds⟩
  | .ndarray a, inds => .ndarray ⟨a.dtype, selectRows a.data inds⟩
  | .other ty, _ => .other ty

/-- Lines 40–50 of `nms` (and the identical blocks of `oks_nms` /
`oks_nms_vis`, which use `kpts` in the message): convert the argument to
a tensor, placing a numpy array on `cpu` or, when `device_id` is given,
on `cuda:device_id`; record whether the argument was a numpy array;
anything else raises `TypeError`. -/
def toTensor (argName : String) (x : Dets) (device_id : Option Nat) :
    Except PyError (Tensor × Bool) :=
  match x with
  | .tensor t => .ok (t, false)
  | .ndarray a =>
      let device := match device_id with
        | none => Device.cpu
        | some i => Device.cuda i
      .ok (⟨device, a.dtype, a.data⟩, true)
  | .other ty =>
      .error (.typeError
        (argName ++ " must be either a Tensor or numpy array, but got " ++ ty))

/-- Function `nms` (nms_wrapper.py lines 10–63): dispatch to the CPU or CUDA hard
NMS backend; an empty candidate set short-circuits to empty indices; the
kept rows are `dets[inds, :]` on the original argument and the indices
come back as a numpy array exactly when the input was one. -/
def nms (dets : Dets) (iou_thr : ℚ) (device_id : Option Nat) : CallOut :=
  match toTensor "dets" dets device_id with
  | .error e => ⟨.error e, []⟩
  | .ok (dets_th, is_numpy) =>
      let indsLog : List Nat × List Backend :=
        if dets_th.data.length = 0 then ([], [])
        else if dets_th.device.isCuda then
          (nmsBackend dets_th.data iou_thr, [.nmsCuda])
        else (nmsBackend dets_th.data iou_thr, [.nmsCpu])
      let indsR : Inds :=
        if is_numpy then .np indsLog.1 else .tens dets_th.device indsLog.1
      ⟨.ok (indexDets dets indsLog.1, indsR), indsLog.2⟩

/-- The `method_codes` dict of `soft_nms` (line 90): 1 for linear, 2 for
gaussian, nothing otherwise. -/
def methodCodes (method : String) : Option Nat :=
  if method = "linear" then some 1
  else if method = "gaussian" then some 2
  else none

/-- Function `soft_nms` (nms_wrapper.py lines 66–104): always runs the host
backend `soft_nms_cpu` (a tensor argument is copied to the host first,
with no empty-input guard); a tensor argument comes back as tensors with
the input's device and dtype via `new_tensor`, a numpy argument comes
back as `float32` rows and `int64` indices via `astype`. -/
def soft_nms (dets : Dets) (iou_thr : ℚ) (method : String)
    (sigma min_score : ℚ) : CallOut :=
  match dets with
  | .other ty =>
      ⟨.error (.typeError
        ("dets must be either a Tensor or numpy array, but got " ++ ty)), []⟩
  | _ =>
    match methodCodes method with
    | none => ⟨.error (.valueError ("Invalid method for SoftNMS: " ++ method)), []⟩
    | some code =>
        let nd := softNmsCpuBackend dets.rows iou_thr code sigma min_score
        match dets with
        | .tensor t =>
            ⟨.ok (.tensor ⟨t.device, t.dtype, nd.1⟩, .tens t.device nd.2),
             [.softNmsCpu]⟩
        | .ndarray _ => ⟨.ok (.ndarray ⟨.f32, nd.1⟩, .np nd.2), [.softNmsCpu]⟩
        | .other ty =>
            ⟨.error (.typeError
              ("dets must be either a Tensor or numpy array, but got " ++ ty)), []⟩

/-- The first `oks_nms` definition (nms_wrapper.py lines 107–163): each
sigma is divided by 10, then dispatch — CUDA backend for an
accelerator-resident tensor, otherwise the CPU backend (whose live code
also invokes the Python backend and discards its result, line 147); an
empty candidate set short-circuits to empty indices. -/
def oks_nms_def1 (kpts : Dets) (iou_thr : ℚ) (sigmas : List ℚ)
    (device_id : Option Nat) : CallOut :=
  let sigmas := sigmas.map (fun s => s / 10)
  match toTensor "kpts" kpts device_id with
  | .error e => ⟨.error e, []⟩
  | .ok (kpts_th, is_numpy) =>
      let indsLog : List Nat × List Backend :=
        if kpts_th.data.length = 0 then ([], [])
        else if kpts_th.device.isCuda then
          (oksNmsBackend kpts_th.data iou_thr sigmas, [.oksNmsCuda])
        else (oksNmsBackend kpts_th.data iou_thr sigmas, [.oksNmsCpu, .oksNmsPy])
      let indsR : Inds :=
        if is_numpy then .np indsLog.1 else .tens kpts_th.device indsLog.1
      ⟨.ok (indexDets kpts indsLog.1, indsR), indsLog.2⟩

/-- The second, verbatim `oks_nms` definition (nms_wrapper.py lines
166–222), the one that shadows the first at import time. -/
def oks_nms_def2 (kpts : Dets) (iou_thr : ℚ) (sigmas : List ℚ)
    (device_id : Option Nat) : CallOut :=
  let sigmas := sigmas.map (fun s => s / 10)
  match toTensor "kpts" kpts device_id with
  | .error e => ⟨.error e, []⟩
  | .ok (kpts_th, is_numpy) =>
      let indsLog : List Nat × List Backend :=
        if kpts_th.data.length = 0 then ([], [])
        else if kpts_th.device.isCuda then
          (oksNmsBackend kpts_th.data iou_thr sigmas, [.oksNmsCuda])
        else (oksNmsBackend kpts_th.data iou_thr sigmas, [.oksNmsCpu, .oksNmsPy])
      let indsR : Inds :=
        if is_numpy then .np indsLog.1 else .tens kpts_th.device indsLog.1
      ⟨.ok (indexDets kpts indsLog.1, indsR), indsLog.2⟩

/-- The `oks_nms` binding the module exports (the later definition). -/
def oks_nms : Dets → ℚ → List ℚ → Option Nat → CallOut := oks_nms_def2

/-- Function `oks_nms_vis` (nms_wrapper.py lines 225–281): each sigma is divided
by 10, then dispatch — the visibility-gated CUDA backend
`oks_nms_vis_cuda` (receiving `vis_thr`) for an accelerator-resident
tensor, but the ungated CPU backend `oks_nms_cpu` (plus the discarded
Python call) on the host path, where `vis_thr` is never passed on. -/
def oks_nms_vis (kpts : Dets) (iou_thr : ℚ) (sigmas : List ℚ)
    (vis_thr : ℚ) (device_id : Option Nat) : CallOut :=
  let sigmas := sigmas.map (fun s => s / 10)
  match toTensor "kpts" kpts device_id with
  | .error e => ⟨.error e, []⟩
  | .ok (kpts_th, is_numpy) =>
      let indsLog : List Nat × List Backend :=
        if kpts_th.data.length = 0 then ([], [])
        else if kpts_th.device.isCuda then
          (oksNmsVisBackend kpts_th.data iou_thr vis_thr sigmas, [.oksNmsVisCuda])
        else (oksNmsBackend kpts_th.data iou_thr sigmas, [.oksNmsCpu, .oksNmsPy])
      let indsR : Inds :=
        if is_numpy then .np indsLog.1 else .tens kpts_th.device indsLog.1
      ⟨.ok (indexDets kpts indsLog.1, indsR), indsLog.2⟩

/-- Variant of `oks_nms` with the sigma-rescaling line (`sigmas = [s/10 for s in
sigmas]`, line 184) removed: the backend dispatch applied to the sigmas
exactly as supplied.  Used to state what the rescaling line does. -/
def oks_nms_noscale (kpts : Dets) (iou_thr : ℚ) (sigmas : List ℚ)
    (device_id : Option Nat) : CallOut :=
  match toTensor "kpts" kpts device_id with
  | .error e => ⟨.error e, []⟩
  | .ok (kpts_th, is_numpy) =>
      let indsLog : List Nat × List Backend :=
        if kpts_th.data.length = 0 then ([], [])
        else if kpts_th.device.isCuda then
          (oksNmsBackend kpts_th.data iou_thr sigmas, [.oksNmsCuda])
        else (oksNmsBackend kpts_th.data iou_thr sigmas, [.oksNmsCpu, .oksNmsPy])
      let indsR : Inds :=
        if is_numpy then .np indsLog.1 else .tens kpts_th.device indsLog.1
      ⟨.ok (indexDets kpts indsLog.1, indsR), indsLog.2⟩

/-- Variant of `oks_nms_vis` with the sigma-rescaling line (line 243) removed. -/
def oks_nms_vis_noscale (kpts : Dets) (iou_thr : ℚ) (sigmas : List ℚ)
    (vis_thr : ℚ) (device_id : Option Nat) : CallOut :=
  match toTensor "kpts" kpts device_id with
  | .error e => ⟨.error e, []⟩
  | .ok (kpts_th, is_numpy) =>
      let indsLog : List Nat × List Backend :=
        if kpts_th.data.length = 0 then ([], [])
        else if kpts_th.device.isCuda then
          (oksNmsVisBackend kpts_th.data iou_thr vis_thr sigmas, [.oksNmsVisCuda])
        else (oksNmsBackend kpts_th.data iou_thr sigmas, [.oksNmsCpu, .oksNmsPy])
      let indsR : Inds :=
        if is_numpy then .np indsLog.1 else .tens kpts_th.device indsLog.1
      ⟨.ok (indexDets kpts indsLog.1, indsR), indsLog.2⟩

/-- Whether a call with this argument and device override runs on the
accelerator: a cuda-resident tensor, or a numpy array with an explicit
`device_id`. -/
def usesAccel (x : Dets) (device_id : Option Nat) : Bool :=
  match x with
  | .tensor t => t.device.isCuda
  | .ndarray _ => device_id.isSome
  | .other _ => false

/-- The index list a call returned (empty when it raised). -/
def CallOut.inds (c : CallOut) : List Nat :=
  match c.res with
  | .ok (_, i) => i.toList
  | .error _ => []

/-- Predicate: `p` is a row of `rows`, carrying `rows`'s entry at its index with at
most the score entry (position 4) rewritten. -/
def RowFrom (rows : List (List ℚ)) (p : Nat × List ℚ) : Prop :=
  p.1 < rows.length ∧ ∃ s, p.2 = (rows.getD p.1 []).set 4 s

theorem mem_insertDesc {s : List ℚ → ℚ} {x p : Nat × List ℚ} :
    ∀ {l : List (Nat × List ℚ)}, p ∈ insertDesc s x l ↔ p = x ∨ p ∈ l := by
  intro l
  induction l with
  | nil => simp [insertDesc]
  | cons y ys ih =>
      simp only [insertDesc]
      split
      · simp
      · simp only [List.mem_cons, ih]
        tauto

theorem mem_sortDesc {s : List ℚ → ℚ} {p : Nat × List ℚ} :
    ∀ {l : List (Nat × List ℚ)}, p ∈ sortDesc s l ↔ p ∈ l := by
  intro l
  induction l with
  | nil => simp [sortDesc]
  | cons x xs ih => simp [sortDesc, mem_insertDesc, ih]

theorem mem_pruneOver {m : List ℚ → List ℚ → ℚ} {thr : ℚ} {kept : List ℚ}
    {p : Nat × List ℚ} : ∀ {l : List (Nat × List ℚ)},
    p ∈ pruneOver m thr kept l → p ∈ l := by
  intro l
  induction l with
  | nil => simp [pruneOver]
  | cons q qs ih =>
      simp only [pruneOver]
      split
      · exact fun h => List.mem_cons_of_mem _ (ih h)
      · intro h
        rcases List.mem_cons.mp h with h | h
        · exact h ▸ List.mem_cons_self _ _
        · exact List.mem_cons_of_mem _ (ih h)

theorem mem_dropLow {ms : ℚ} {p : Nat × List ℚ} :
    ∀ {l : List (Nat × List ℚ)}, p ∈ dropLow ms l → p ∈ l := by
  intro l
  induction l with
  | nil => simp [dropLow]
  | cons q qs ih =>
      simp only [dropLow]
      split
      · exact fun h => List.mem_cons_of_mem _ (ih h)
      · intro h
        rcases List.mem_cons.mp h with h | h
        · exact h ▸ List.mem_cons_self _ _
        · exact List.mem_cons_of_mem _ (ih h)

theorem greedyFuel_sub (m : List ℚ → List ℚ → ℚ) (thr : ℚ) :
    ∀ (fuel : Nat) (l : List (Nat × List ℚ)) (i : Nat),
      i ∈ greedyFuel m thr fuel l → ∃ r, (i, r) ∈ l
  | 0, _, _ => by simp [greedyFuel]
  | _+1, [], _ => by simp [greedyFuel]
  | fuel+1, x :: rest, i => by
      intro hi
      simp only [greedyFuel, List.mem_cons] at hi
      rcases hi with h | h
      · exact ⟨x.2, by simp [h]⟩
      · obtain ⟨r, hr⟩ := greedyFuel_sub m thr fuel (pruneOver m thr x.2 rest) i h
        exact ⟨r, List.mem_cons_of_mem _ (mem_pruneOver hr)⟩

theorem mem_enum_bound {α : Type} {l : List α} {i : Nat} {r : α} (d : α)
    (h : (i, r) ∈ l.enum) : i < l.length ∧ l.getD i d = r := by
  rw [List.mk_mem_enum_iff_getElem?] at h
  refine ⟨List.getElem?_eq_some.mp h |>.1, ?_⟩
  simp [List.getD_eq_getElem?_getD, h]

/-- Indices the greedy backend keeps are valid 0-based indices into the
candidate rows. -/
theorem greedy_bounds (m : List ℚ → List ℚ → ℚ) (s : List ℚ → ℚ) (thr : ℚ)
    (rows : List (List ℚ)) : ∀ i ∈ greedy m s thr rows, i < rows.length := by
  intro i hi
  obtain ⟨r, hr⟩ := greedyFuel_sub m thr _ _ i hi
  exact (mem_enum_bound [] (mem_sortDesc.mp hr)).1

theorem set_getD_self : ∀ (l : List ℚ) (n : Nat), l.set n (l.getD n 0) = l
  | [], _ => rfl
  | _ :: _, 0 => rfl
  | x :: xs, n+1 => by
      simp only [List.set, List.getD_cons_succ]
      rw [set_getD_self xs n]

theorem rowFrom_decay {rows : List (List ℚ)} {code : Nat} {thr σ : ℚ}
    {top : List ℚ} {p : Nat × List ℚ} (h : RowFrom rows p) :
    RowFrom rows (p.1, decaySoft code thr σ top p.2) := by
  obtain ⟨h1, s, hs⟩ := h
  refine ⟨h1, decayScore code thr σ top p.2, ?_⟩
  show p.2.set 4 (decayScore code thr σ top p.2) = _
  rw [hs, List.set_set]

theorem softFuel_inv (rows : List (List ℚ)) (code : Nat) (thr σ ms : ℚ) :
    ∀ (fuel : Nat) (l : List (Nat × List ℚ)),
      (∀ p ∈ l, RowFrom rows p) →
      ∀ q ∈ softFuel code thr σ ms fuel l, RowFrom rows q
  | 0, _ => by simp [softFuel]
  | fuel+1, l => by
      intro hl q hq
      simp only [softFuel] at hq
      rcases hsort : sortDesc boxScore l with _ | ⟨top, rest⟩ <;> rw [hsort] at hq
      · simp at hq
      · rcases List.mem_cons.mp hq with h | h
        · exact h ▸ hl _ (mem_sortDesc.mp (hsort ▸ List.mem_cons_self top rest))
        · refine softFuel_inv rows code thr σ ms fuel _ ?_ q h
          intro p hp
          obtain ⟨a, ha, rfl⟩ := List.mem_map.mp (mem_dropLow hp)
          exact rowFrom_decay
            (hl a (mem_sortDesc.mp (hsort ▸ List.mem_cons_of_mem top ha)))

/-- Every pair the soft-NMS backend loop emits is an input row with at
most its score rewritten, at a valid index. -/
theorem softNmsCpuBackend_from (rows : List (List ℚ)) (thr : ℚ) (code : Nat)
    (σ ms : ℚ) :
    ∀ q ∈ softFuel code thr σ ms rows.length rows.enum, RowFrom rows q := by
  refine softFuel_inv rows code thr σ ms rows.length rows.enum ?_
  intro p hp
  have hb := mem_enum_bound [] (show (p.1, p.2) ∈ rows.enum from hp)
  exact ⟨hb.1, (rows.getD p.1 []).getD 4 0, by rw [hb.2, set_getD_self]⟩

/-- C2 (counterexample): a zero-candidate call to `soft_nms` returns an
empty kept set and empty indices with no error, yet its backend log
shows `soft_nms_cpu` was invoked — refuting the claim that for every
entry point the suppression backend is not invoked at all on
zero-candidate input. -/
theorem C2_counterexample :
    soft_nms (Dets.ndarray ⟨.f64, []⟩) 1 "linear" (1/2) (1/1000) =
      ⟨.ok (.ndarray ⟨.f32, []⟩, .np []), [Backend.softNmsCpu]⟩ := rfl

/-- C2 (amended): a zero-candidate input returns an empty kept set and
empty indices and raises no error at every entry point; `nms`,
`oks_nms` and `oks_nms_vis` short-circuit without invoking any backend,
but `soft_nms` passes the empty input to the `soft_nms_cpu` backend. -/
theorem C2_theorem :
    ∀ (dt : DType) (dev : Device) (thr σ ms vthr : ℚ) (dev_id : Option Nat)
      (σs : List ℚ),
      nms (Dets.ndarray ⟨dt, []⟩) thr dev_id =
        ⟨.ok (.ndarray ⟨dt, []⟩, .np []), []⟩ ∧
      nms (Dets.tensor ⟨dev, dt, []⟩) thr dev_id =
        ⟨.ok (.tensor ⟨dev, dt, []⟩, .tens dev []), []⟩ ∧
      oks_nms (Dets.ndarray ⟨dt, []⟩) thr σs dev_id =
        ⟨.ok (.ndarray ⟨dt, []⟩, .np []), []⟩ ∧
      oks_nms (Dets.tensor ⟨dev, dt, []⟩) thr σs dev_id =
        ⟨.ok (.tensor ⟨dev, dt, []⟩, .tens dev []), []⟩ ∧
      oks_nms_vis (Dets.ndarray ⟨dt, []⟩) thr σs vthr dev_id =
        ⟨.ok (.ndarray ⟨dt, []⟩, .np []), []⟩ ∧
      oks_nms_vis (Dets.tensor ⟨dev, dt, []⟩) thr σs vthr dev_id =
        ⟨.ok (.tensor ⟨dev, dt, []⟩, .tens dev []), []⟩ ∧
      soft_nms (Dets.ndarray ⟨dt, []⟩) thr "linear" σ ms =
        ⟨.ok (.ndarray ⟨.f32, []⟩, .np []), [Backend.softNmsCpu]⟩ ∧
      soft_nms (Dets.tensor ⟨dev, dt, []⟩) thr "linear" σ ms =
        ⟨.ok (.tensor ⟨dev, dt, []⟩, .tens dev []), [Backend.softNmsCpu]⟩ ∧
      soft_nms (Dets.ndarray ⟨dt, []⟩) thr "gaussian" σ ms =
        ⟨.ok (.ndarray ⟨.f32, []⟩, .np []), [Backend.softNmsCpu]⟩ ∧
      soft_nms (Dets.tensor ⟨dev, dt, []⟩) thr "gaussian" σ ms =
        ⟨.ok (.tensor ⟨dev, dt, []⟩, .tens dev []), [Backend.softNmsCpu]⟩ := by
  intro dt dev thr σ ms vthr dev_id σs
  exact ⟨rfl, rfl, rfl, rfl, rfl, rfl, rfl, rfl, rfl, rfl⟩

/-- C6: for every method name other than linear and gaussian, `soft_nms`
on a supported container raises `ValueError` naming the method, with no
suppression backend invoked and no silent fallback. -/
theorem C6_theorem :
    ∀ (dets : Dets) (thr σ ms : ℚ) (method : String),
      dets.isContainer = true → method ≠ "linear" → method ≠ "gaussian" →
      soft_nms dets thr method σ ms =
        ⟨.error (.valueError ("Invalid method for SoftNMS: " ++ method)), []⟩ := by
  intro dets thr σ ms method hc h1 h2
  have hm : methodCodes method = none := by simp [methodCodes, h1, h2]
  cases dets with
  | tensor t => simp [soft_nms, hm]
  | ndarray a => simp [soft_nms, hm]
  | other ty => simp [Dets.isContainer] at hc

/-- C6 (witness): instantiating the theorem at the method name
`quadratic` on an array input. -/
theorem C6_witness :
    soft_nms (Dets.ndarray ⟨.f32, []⟩) 1 "quadratic" (1/2) (1/1000) =
      ⟨.error (.valueError ("Invalid method for SoftNMS: " ++ "quadratic")), []⟩ :=
  C6_theorem (Dets.ndarray ⟨.f32, []⟩) 1 (1/2) (1/1000) "quadratic" rfl
    (by decide) (by decide)

/-- C7: a candidate-set argument that is neither a tensor nor a numpy
array makes every entry point raise `TypeError` naming the offending
type, before any suppression backend is invoked. -/
theorem C7_theorem :
    ∀ (ty : String) (thr σ ms vthr : ℚ) (dev_id : Option Nat)
      (method : String) (σs : List ℚ),
      nms (Dets.other ty) thr dev_id =
        ⟨.error (.typeError
          ("dets must be either a Tensor or numpy array, but got " ++ ty)), []⟩ ∧
      soft_nms (Dets.other ty) thr method σ ms =
        ⟨.error (.typeError
          ("dets must be either a Tensor or numpy array, but got " ++ ty)), []⟩ ∧
      oks_nms (Dets.other ty) thr σs dev_id =
        ⟨.error (.typeError
          ("kpts must be either a Tensor or numpy array, but got " ++ ty)), []⟩ ∧
      oks_nms_vis (Dets.other ty) thr σs vthr dev_id =
        ⟨.error (.typeError
          ("kpts must be either a Tensor or numpy array, but got " ++ ty)), []⟩ := by
  intro ty thr σ ms vthr dev_id method σs
  exact ⟨rfl, rfl, rfl, rfl⟩

/-- C8: every entry point is deterministic — two calls with identical
arguments return identical kept candidates, indices and backend logs. -/
theorem C8_theorem :
    ∀ (d d' : Dets) (t t' σ σ' ms ms' v v' : ℚ) (dev dev' : Option Nat)
      (method method' : String) (σs σs' : List ℚ),
      d = d' → t = t' → σ = σ' → ms = ms' → v = v' → dev = dev' →
      method = method' → σs = σs' →
      nms d t dev = nms d' t' dev' ∧
      soft_nms d t method σ ms = soft_nms d' t' method' σ' ms' ∧
      oks_nms d t σs dev = oks_nms d' t' σs' dev' ∧
      oks_nms_vis d t σs v dev = oks_nms_vis d' t' σs' v' dev' := by
  intro d d' t t' σ σ' ms ms' v v' dev dev' method method' σs σs'
  intro h1 h2 h3 h4 h5 h6 h7 h8
  subst h1; subst h2; subst h3; subst h4; subst h5; subst h6; subst h7; subst h8
  exact ⟨rfl, rfl, rfl, rfl⟩

/-- C8 (witness): the theorem instantiated at one concrete argument
vector, every equality hypothesis discharged by `rfl`. -/
theorem C8_witness :
    nms (Dets.ndarray ⟨.f32, [[0, 0, 1, 1, 9/10]]⟩) (7/10) none =
      nms (Dets.ndarray ⟨.f32, [[0, 0, 1, 1, 9/10]]⟩) (7/10) none ∧
    soft_nms (Dets.ndarray ⟨.f32, [[0, 0, 1, 1, 9/10]]⟩) (7/10) "linear"
        (1/2) (1/1000) =
      soft_nms (Dets.ndarray ⟨.f32, [[0, 0, 1, 1, 9/10]]⟩) (7/10) "linear"
        (1/2) (1/1000) ∧
    oks_nms (Dets.ndarray ⟨.f32, [[0, 0, 1, 1, 9/10]]⟩) (7/10) [10] none =
      oks_nms (Dets.ndarray ⟨.f32, [[0, 0, 1, 1, 9/10]]⟩) (7/10) [10] none ∧
    oks_nms_vis (Dets.ndarray ⟨.f32, [[0, 0, 1, 1, 9/10]]⟩) (7/10) [10]
        (1/10) none =
      oks_nms_vis (Dets.ndarray ⟨.f32, [[0, 0, 1, 1, 9/10]]⟩) (7/10) [10]
        (1/10) none :=
  C8_theorem _ _ _ _ _ _ _ _ _ _ _ _ _ _ _ _
    rfl rfl rfl rfl rfl rfl rfl rfl

theorem indexDets_family (dets : Dets) (l : List Nat) :
    (indexDets dets l).isTensor = dets.isTensor ∧
    (indexDets dets l).isNdarray = dets.isNdarray ∧
    (indexDets dets l).dtype = dets.dtype := by
  cases dets <;> simp [indexDets, Dets.isTensor, Dets.isNdarray, Dets.dtype]

/-- C3 (counterexample): `soft_nms` on a float64 numpy array returns its
kept candidates as a float32 array — the element datatype of the input
is not preserved on the array path. -/
theorem C3_counterexample :
    soft_nms (Dets.ndarray ⟨.f64, [[0, 0, 1, 1, 9/10]]⟩) (7/10) "linear"
        (1/2) (1/1000) =
      ⟨.ok (.ndarray ⟨.f32, [[0, 0, 1, 1, 9/10]]⟩, .np [0]),
       [Backend.softNmsCpu]⟩ ∧
    DType.f32 ≠ DType.f64 :=
  ⟨rfl, by decide⟩

/-- C3 (amended): every entry point returns output in the input's
representation family (array-in → array-out, tensor-in → tensor-out),
and `nms`, `oks_nms` and `oks_nms_vis` preserve the input element
datatype in the kept candidates; `soft_nms` preserves it only on the
tensor path and returns float32 kept candidates on the array path,
regardless of the input dtype. -/
theorem C3_theorem :
    (∀ (dets : Dets) (thr : ℚ) (dev : Option Nat) (kept : Dets) (inds : Inds),
      (nms dets thr dev).res = .ok (kept, inds) →
      kept.isTensor = dets.isTensor ∧ kept.isNdarray = dets.isNdarray ∧
      kept.dtype = dets.dtype) ∧
    (∀ (kpts : Dets) (thr : ℚ) (σs : List ℚ) (dev : Option Nat)
      (kept : Dets) (inds : Inds),
      (oks_nms kpts thr σs dev).res = .ok (kept, inds) →
      kept.isTensor = kpts.isTensor ∧ kept.isNdarray = kpts.isNdarray ∧
      kept.dtype = kpts.dtype) ∧
    (∀ (kpts : Dets) (thr : ℚ) (σs : List ℚ) (vthr : ℚ) (dev : Option Nat)
      (kept : Dets) (inds : Inds),
      (oks_nms_vis kpts thr σs vthr dev).res = .ok (kept, inds) →
      kept.isTensor = kpts.isTensor ∧ kept.isNdarray = kpts.isNdarray ∧
      kept.dtype = kpts.dtype) ∧
    (∀ (dets : Dets) (thr : ℚ) (method : String) (σ ms : ℚ)
      (kept : Dets) (inds : Inds),
      (soft_nms dets thr method σ ms).res = .ok (kept, inds) →
      kept.isTensor = dets.isTensor ∧ kept.isNdarray = dets.isNdarray ∧
      (dets.isTensor = true → kept.dtype = dets.dtype) ∧
      (dets.isNdarray = true → kept.dtype = DType.f32)) := by
  refine ⟨?_, ?_, ?_, ?_⟩
  · intro dets thr dev kept inds h
    cases dets with
    | other ty => simp [nms, toTensor] at h
    | tensor t =>
        simp only [nms, toTensor, Except.ok.injEq, Prod.mk.injEq] at h
        obtain ⟨h1, -⟩ := h
        exact h1 ▸ indexDets_family _ _
    | ndarray a =>
        simp only [nms, toTensor, Except.ok.injEq, Prod.mk.injEq] at h
        obtain ⟨h1, -⟩ := h
        exact h1 ▸ indexDets_family _ _
  · intro kpts thr σs dev kept inds h
    cases kpts with
    | other ty => simp [oks_nms, oks_nms_def2, toTensor] at h
    | tensor t =>
        simp only [oks_nms, oks_nms_def2, toTensor, Except.ok.injEq,
          Prod.mk.injEq] at h
        obtain ⟨h1, -⟩ := h
        exact h1 ▸ indexDets_family _ _
    | ndarray a =>
        simp only [oks_nms, oks_nms_def2, toTensor, Except.ok.injEq,
          Prod.mk.injEq] at h
        obtain ⟨h1, -⟩ := h
        exact h1 ▸ indexDets_family _ _
  · intro kpts thr σs vthr dev kept inds h
    cases kpts with
    | other ty => simp [oks_nms_vis, toTensor] at h
    | tensor t =>
        simp only [oks_nms_vis, toTensor, Except.ok.injEq, Prod.mk.injEq] at h
        obtain ⟨h1, -⟩ := h
        exact h1 ▸ indexDets_family _ _
    | ndarray a =>
        simp only [oks_nms_vis, toTensor, Except.ok.injEq, Prod.mk.injEq] at h
        obtain ⟨h1, -⟩ := h
        exact h1 ▸ indexDets_family _ _
  · intro dets thr method σ ms kept inds h
    cases dets with
    | other ty => simp [soft_nms] at h
    | tensor t =>
        cases hm : methodCodes method with
        | none => simp [soft_nms, hm] at h
        | some code =>
            simp only [soft_nms, hm, Except.ok.injEq, Prod.mk.injEq] at h
            obtain ⟨h1, -⟩ := h
            subst h1
            simp [Dets.isTensor, Dets.isNdarray, Dets.dtype]
    | ndarray a =>
        cases hm : methodCodes method with
        | none => simp [soft_nms, hm] at h
        | some code =>
            simp only [soft_nms, hm, Except.ok.injEq, Prod.mk.injEq] at h
            obtain ⟨h1, -⟩ := h
            subst h1
            simp [Dets.isTensor, Dets.isNdarray, Dets.dtype]

/-- C3 (witness): the theorem's tensor-path conjuncts instantiated at a
concrete successful `nms` call and a concrete successful `soft_nms`
call. -/
theorem C3_witness :
    ((Dets.tensor ⟨.cpu, .f64, []⟩).isTensor =
        (Dets.tensor ⟨.cpu, .f64, []⟩).isTensor ∧
      (Dets.tensor ⟨.cpu, .f64, []⟩).isNdarray =
        (Dets.tensor ⟨.cpu, .f64, []⟩).isNdarray ∧
      (Dets.tensor ⟨.cpu, .f64, []⟩).dtype =
        (Dets.tensor ⟨.cpu, .f64, []⟩).dtype) := by
  exact (C3_theorem.1 (Dets.tensor ⟨.cpu, .f64, []⟩) 1 none
    (Dets.tensor ⟨.cpu, .f64, []⟩) (.tens .cpu []) rfl)

/-- C4 (counterexample): `soft_nms` on an accelerator-resident tensor
still executes on the host backend, and `nms` on a host tensor with an
explicit `device_id` override also executes on the host backend —
refuting the claimed residency/override dispatch for every entry
point. -/
theorem C4_counterexample :
    (soft_nms (Dets.tensor ⟨.cuda 0, .f32, [[0, 0, 1, 1, 9/10]]⟩) (7/10)
        "linear" (1/2) (1/1000)).log = [Backend.softNmsCpu] ∧
    (nms (Dets.tensor ⟨.cpu, .f32, [[0, 0, 1, 1, 9/10]]⟩) (7/10)
        (some 0)).log = [Backend.nmsCpu] :=
  ⟨rfl, rfl⟩

/-- C4 (amended): `nms`, `oks_nms` and `oks_nms_vis` execute on the
accelerator backend exactly for an accelerator-resident tensor or an
array input with the explicit `device_id` override (`device_id` is
ignored for tensor inputs), and on the host backend otherwise;
`soft_nms` always executes on the host backend `soft_nms_cpu`,
regardless of residency. -/
theorem C4_theorem :
    (∀ (dets : Dets) (thr : ℚ) (dev : Option Nat),
      dets.isContainer = true → dets.rows ≠ [] →
      (nms dets thr dev).log =
        if usesAccel dets dev then [Backend.nmsCuda] else [Backend.nmsCpu]) ∧
    (∀ (kpts : Dets) (thr : ℚ) (σs : List ℚ) (dev : Option Nat),
      kpts.isContainer = true → kpts.rows ≠ [] →
      (oks_nms kpts thr σs dev).log =
        if usesAccel kpts dev then [Backend.oksNmsCuda]
        else [Backend.oksNmsCpu, Backend.oksNmsPy]) ∧
    (∀ (kpts : Dets) (thr : ℚ) (σs : List ℚ) (vthr : ℚ) (dev : Option Nat),
      kpts.isContainer = true → kpts.rows ≠ [] →
      (oks_nms_vis kpts thr σs vthr dev).log =
        if usesAccel kpts dev then [Backend.oksNmsVisCuda]
        else [Backend.oksNmsCpu, Backend.oksNmsPy]) ∧
    (∀ (dets : Dets) (thr : ℚ) (method : String) (σ ms : ℚ),
      dets.isContainer = true →
      (method = "linear" ∨ method = "gaussian") →
      (soft_nms dets thr method σ ms).log = [Backend.softNmsCpu]) := by
  refine ⟨?_, ?_, ?_, ?_⟩
  · intro dets thr dev hc hne
    cases dets with
    | other ty => simp [Dets.isContainer] at hc
    | tensor t =>
        have hlen : t.data.length ≠ 0 := by
          simpa [Dets.rows, List.length_eq_zero] using hne
        cases hcuda : t.device.isCuda <;>
          simp [nms, toTensor, usesAccel, hlen, hcuda]
    | ndarray a =>
        have hlen : a.data.length ≠ 0 := by
          simpa [Dets.rows, List.length_eq_zero] using hne
        cases dev <;> simp [nms, toTensor, usesAccel, hlen, Device.isCuda]
  · intro kpts thr σs dev hc hne
    cases kpts with
    | other ty => simp [Dets.isContainer] at hc
    | tensor t =>
        have hlen : t.data.length ≠ 0 := by
          simpa [Dets.rows, List.length_eq_zero] using hne
        cases hcuda : t.device.isCuda <;>
          simp [oks_nms, oks_nms_def2, toTensor, usesAccel, hlen, hcuda]
    | ndarray a =>
        have hlen : a.data.length ≠ 0 := by
          simpa [Dets.rows, List.length_eq_zero] using hne
        cases dev <;>
          simp [oks_nms, oks_nms_def2, toTensor, usesAccel, hlen, Device.isCuda]
  · intro kpts thr σs vthr dev hc hne
    cases kpts with
    | other ty => simp [Dets.isContainer] at hc
    | tensor t =>
        have hlen : t.data.length ≠ 0 := by
          simpa [Dets.rows, List.length_eq_zero] using hne
        cases hcuda : t.device.isCuda <;>
          simp [oks_nms_vis, toTensor, usesAccel, hlen, hcuda]
    | ndarray a =>
        have hlen : a.data.length ≠ 0 := by
          simpa [Dets.rows, List.length_eq_zero] using hne
        cases dev <;>
          simp [oks_nms_vis, toTensor, usesAccel, hlen, Device.isCuda]
  · intro dets thr method σ ms hc hmethod
    have hm : ∃ c, methodCodes method = some c := by
      rcases hmethod with h | h <;> subst h <;> exact ⟨_, rfl⟩
    obtain ⟨c, hm⟩ := hm
    cases dets with
    | other ty => simp [Dets.isContainer] at hc
    | tensor t => simp [soft_nms, hm]
    | ndarray a => simp [soft_nms, hm]

/-- C4 (witness): the theorem instantiated at a host-resident array
(host backend chosen) and at an accelerator-resident tensor given to
`soft_nms` (host backend still chosen). -/
theorem C4_witness :
    (nms (Dets.ndarray ⟨.f32, [[0, 0, 1, 1, 9/10]]⟩) (7/10) none).log =
      [Backend.nmsCpu] ∧
    (soft_nms (Dets.tensor ⟨.cuda 0, .f32, []⟩) 1 "linear" (1/2)
        (1/1000)).log = [Backend.softNmsCpu] := by
  constructor
  · have h := C4_theorem.1 (Dets.ndarray ⟨.f32, [[0, 0, 1, 1, 9/10]]⟩)
      (7/10) none rfl (by simp [Dets.rows])
    simpa [usesAccel] using h
  · exact C4_theorem.2.2.2 (Dets.tensor ⟨.cuda 0, .f32, []⟩) 1 "linear"
      (1/2) (1/1000) rfl (Or.inl rfl)

/-- The generic dispatch core keeps indices inside the row bounds
whenever both backends do. -/
theorem dispatch_mem_bound {rows : List (List ℚ)} {c1 : Prop} [Decidable c1]
    {B B2 : List Nat} {X Y : List Backend}
    (hB : ∀ j ∈ B, j < rows.length) (hB2 : ∀ j ∈ B2, j < rows.length) :
    ∀ j ∈ (if rows.length = 0 then ([], ([] : List Backend))
           else if c1 then (B, X) else (B2, Y)).1,
      j < rows.length := by
  intro j hj
  split at hj
  · simp at hj
  · split at hj
    · exact hB j hj
    · exact hB2 j hj

/-- Every (index, kept-row) pair the soft-NMS backend returns points at
a valid input row and carries that row with at most its score entry
rewritten. -/
theorem softBackend_zip (rows : List (List ℚ)) (thr : ℚ) (code : Nat)
    (σ ms : ℚ) :
    ∀ pr ∈ (softNmsCpuBackend rows thr code σ ms).2.zip
            (softNmsCpuBackend rows thr code σ ms).1,
      pr.1 < rows.length ∧ ∃ s, pr.2 = (rows.getD pr.1 []).set 4 s := by
  intro pr hpr
  simp only [softNmsCpuBackend, List.zip_map'] at hpr
  obtain ⟨q, hq, rfl⟩ := List.mem_map.mp hpr
  exact softNmsCpuBackend_from rows thr code σ ms q hq

/-- C5: every entry point returns 0-based in-bounds indices into the
input, and the i-th returned kept candidate is exactly the input
candidate at the i-th returned index — verbatim for `nms`, `oks_nms`
and `oks_nms_vis`, and with its decayed score substituted (the row is
the input row with at most position 4 rewritten) for `soft_nms`. -/
theorem C5_theorem :
    (∀ (dets : Dets) (thr : ℚ) (dev : Option Nat) (kept : Dets) (inds : Inds),
      (nms dets thr dev).res = .ok (kept, inds) →
      kept.rows = inds.toList.map (fun j => dets.rows.getD j []) ∧
      ∀ j ∈ inds.toList, j < dets.rows.length) ∧
    (∀ (kpts : Dets) (thr : ℚ) (σs : List ℚ) (dev : Option Nat)
      (kept : Dets) (inds : Inds),
      (oks_nms kpts thr σs dev).res = .ok (kept, inds) →
      kept.rows = inds.toList.map (fun j => kpts.rows.getD j []) ∧
      ∀ j ∈ inds.toList, j < kpts.rows.length) ∧
    (∀ (kpts : Dets) (thr : ℚ) (σs : List ℚ) (vthr : ℚ) (dev : Option Nat)
      (kept : Dets) (inds : Inds),
      (oks_nms_vis kpts thr σs vthr dev).res = .ok (kept, inds) →
      kept.rows = inds.toList.map (fun j => kpts.rows.getD j []) ∧
      ∀ j ∈ inds.toList, j < kpts.rows.length) ∧
    (∀ (dets : Dets) (thr : ℚ) (method : String) (σ ms : ℚ)
      (kept : Dets) (inds : Inds),
      (soft_nms dets thr method σ ms).res = .ok (kept, inds) →
      kept.rows.length = inds.toList.length ∧
      ∀ pr ∈ inds.toList.zip kept.rows,
        pr.1 < dets.rows.length ∧
        ∃ s, pr.2 = (dets.rows.getD pr.1 []).set 4 s) := by
  refine ⟨?_, ?_, ?_, ?_⟩
  · intro dets thr dev kept inds h
    cases dets with
    | other ty => simp [nms, toTensor] at h
    | tensor t =>
        simp only [nms, toTensor, Except.ok.injEq, Prod.mk.injEq] at h
        obtain ⟨h1, h2⟩ := h
        subst h1; subst h2
        refine ⟨by simp [indexDets, selectRows, Dets.rows, Inds.toList], ?_⟩
        simp only [Inds.toList, Dets.rows]
        exact dispatch_mem_bound (greedy_bounds _ _ _ _) (greedy_bounds _ _ _ _)
    | ndarray a =>
        simp only [nms, toTensor, Except.ok.injEq, Prod.mk.injEq] at h
        obtain ⟨h1, h2⟩ := h
        subst h1; subst h2
        refine ⟨by simp [indexDets, selectRows, Dets.rows, Inds.toList], ?_⟩
        simp only [Inds.toList, Dets.rows]
        exact dispatch_mem_bound (greedy_bounds _ _ _ _) (greedy_bounds _ _ _ _)
  · intro kpts thr σs dev kept inds h
    cases kpts with
    | other ty => simp [oks_nms, oks_nms_def2, toTensor] at h
    | tensor t =>
        simp only [oks_nms, oks_nms_def2, toTensor, Except.ok.injEq,
          Prod.mk.injEq] at h
        obtain ⟨h1, h2⟩ := h
        subst h1; subst h2
        refine ⟨by simp [indexDets, selectRows, Dets.rows, Inds.toList], ?_⟩
        simp only [Inds.toList, Dets.rows]
        exact dispatch_mem_bound (greedy_bounds _ _ _ _) (greedy_bounds _ _ _ _)
    | ndarray a =>
        simp only [oks_nms, oks_nms_def2, toTensor, Except.ok.injEq,
          Prod.mk.injEq] at h
        obtain ⟨h1, h2⟩ := h
        subst h1; subst h2
        refine ⟨by simp [indexDets, selectRows, Dets.rows, Inds.toList], ?_⟩
        simp only [Inds.toList, Dets.rows]
        exact dispatch_mem_bound (greedy_bounds _ _ _ _) (greedy_bounds _ _ _ _)
  · intro kpts thr σs vthr dev kept inds h
    cases kpts with
    | other ty => simp [oks_nms_vis, toTensor] at h
    | tensor t =>
        simp only [oks_nms_vis, toTensor, Except.ok.injEq, Prod.mk.injEq] at h
        obtain ⟨h1, h2⟩ := h
        subst h1; subst h2
        refine ⟨by simp [indexDets, selectRows, Dets.rows, Inds.toList], ?_⟩
        simp only [Inds.toList, Dets.rows]
        exact dispatch_mem_bound (greedy_bounds _ _ _ _) (greedy_bounds _ _ _ _)
    | ndarray a =>
        simp only [oks_nms_vis, toTensor, Except.ok.injEq, Prod.mk.injEq] at h
        obtain ⟨h1, h2⟩ := h
        subst h1; subst h2
        refine ⟨by simp [indexDets, selectRows, Dets.rows, Inds.toList], ?_⟩
        simp only [Inds.toList, Dets.rows]
        exact dispatch_mem_bound (greedy_bounds _ _ _ _) (greedy_bounds _ _ _ _)
  · intro dets thr method σ ms kept inds h
    cases dets with
    | other ty => simp [soft_nms] at h
    | tensor t =>
        cases hm : methodCodes method with
        | none => simp [soft_nms, hm] at h
        | some code =>
            simp only [soft_nms, hm, Except.ok.injEq, Prod.mk.injEq] at h
            obtain ⟨h1, h2⟩ := h
            subst h1; subst h2
            exact ⟨by simp [softNmsCpuBackend, Dets.rows, Inds.toList],
              softBackend_zip t.data thr code σ ms⟩
    | ndarray a =>
        cases hm : methodCodes method with
        | none => simp [soft_nms, hm] at h
        | some code =>
            simp only [soft_nms, hm, Except.ok.injEq, Prod.mk.injEq] at h
            obtain ⟨h1, h2⟩ := h
            subst h1; subst h2
            exact ⟨by simp [softNmsCpuBackend, Dets.rows, Inds.toList],
              softBackend_zip a.data thr code σ ms⟩

/-- C5 (witness): the `nms` conjunct instantiated at a concrete
one-candidate call that keeps index 0. -/
theorem C5_witness :
    (Dets.ndarray (⟨.f32, [[0, 0, 1, 1, 9/10]]⟩ : NDArray)).rows =
      (Inds.np [0]).toList.map
        (fun j =>
          (Dets.ndarray (⟨.f32, [[0, 0, 1, 1, 9/10]]⟩ : NDArray)).rows.getD j []) ∧
    ∀ j ∈ (Inds.np [0]).toList,
      j < (Dets.ndarray (⟨.f32, [[0, 0, 1, 1, 9/10]]⟩ : NDArray)).rows.length :=
  C5_theorem.1 (Dets.ndarray ⟨.f32, [[0, 0, 1, 1, 9/10]]⟩) (7/10) none
    (Dets.ndarray ⟨.f32, [[0, 0, 1, 1, 9/10]]⟩) (.np [0]) rfl

/-- C9: the two verbatim `oks_nms` definitions (lines 107–163 and
166–222) are extensionally equal — on every input the earlier and the
later (shadowing) definition return the same result, so the module
behaves as a single canonical OKS-NMS implementation. -/
theorem C9_theorem :
    ∀ (kpts : Dets) (thr : ℚ) (σs : List ℚ) (dev_id : Option Nat),
      oks_nms_def1 kpts thr σs dev_id = oks_nms_def2 kpts thr σs dev_id :=
  fun _ _ _ _ => rfl

set_option maxHeartbeats 1000000

/-- On the example pair (kept keypoint barely visible at `1/20`,
coincident locations), the symmetric both-visible OKS is exactly 1. -/
theorem measure_sym_ex1 :
    oksMeasure [1] [1, 1, 0, 0, 1/20] [1/2, 1, 0, 0, 1] = 1 := by
  norm_num [oksMeasure, oksTermsSym, avg0, oksTerm, falloff, kptArea,
    kptList, triples]

/-- On the same pair, the asymmetric gate at `vis_thr = 1/10` skips the
keypoint (kept visibility `1/20 < 1/10`), leaving OKS 0. -/
theorem measure_vis_ex1 :
    oksVisMeasure [1] (1/10) [1, 1, 0, 0, 1/20] [1/2, 1, 0, 0, 1] = 0 := by
  norm_num [oksVisMeasure, oksTermsVis, avg0, oksTerm, falloff, kptArea,
    kptList, triples]

theorem sort_ex1 :
    sortDesc kptScore
      ([[1, 1, 0, 0, 1/20], [1/2, 1, 0, 0, 1]] : List (List ℚ)).enum =
    [(0, [1, 1, 0, 0, 1/20]), (1, [1/2, 1, 0, 0, 1])] := by
  norm_num [List.enum, sortDesc, insertDesc, kptScore]

theorem ung_backend_ex1 :
    oksNmsBackend [[1, 1, 0, 0, 1/20], [1/2, 1, 0, 0, 1]] (1/2) [1] = [0] := by
  rw [oksNmsBackend, greedy, sort_ex1]
  norm_num [greedyFuel, pruneOver, measure_sym_ex1]

theorem gat_backend_ex1 :
    oksNmsVisBackend [[1, 1, 0, 0, 1/20], [1/2, 1, 0, 0, 1]] (1/2) (1/10) [1] =
      [0, 1] := by
  rw [oksNmsVisBackend, greedy, sort_ex1]
  norm_num [greedyFuel, pruneOver, measure_vis_ex1]

/-- C1 (counterexample): on the same two keypoint candidates and the
same `vis_thr`, the host-resident call to `oks_nms_vis` suppresses
candidate 1 through the ungated `oks_nms_cpu` backend, while the
accelerator-resident call applies the visibility gate and keeps both —
the gated policy is not applied on the host-resident path. -/
theorem C1_counterexample :
    oks_nms_vis
        (Dets.ndarray ⟨.f32, [[1, 1, 0, 0, 1/20], [1/2, 1, 0, 0, 1]]⟩)
        (1/2) [10] (1/10) none =
      ⟨.ok (.ndarray ⟨.f32, [[1, 1, 0, 0, 1/20]]⟩, .np [0]),
       [Backend.oksNmsCpu, Backend.oksNmsPy]⟩ ∧
    oks_nms_vis
        (Dets.tensor ⟨.cuda 0, .f32, [[1, 1, 0, 0, 1/20], [1/2, 1, 0, 0, 1]]⟩)
        (1/2) [10] (1/10) none =
      ⟨.ok (.tensor ⟨.cuda 0, .f32, [[1, 1, 0, 0, 1/20], [1/2, 1, 0, 0, 1]]⟩,
            .tens (.cuda 0) [0, 1]),
       [Backend.oksNmsVisCuda]⟩ := by
  have h : List.map (fun s => s / 10) [(10:ℚ)] = [1] := by norm_num
  constructor
  · simp only [oks_nms_vis, toTensor, h]
    norm_num [Device.isCuda, ung_backend_ex1, indexDets, selectRows]
  · simp only [oks_nms_vis, toTensor, h]
    norm_num [Device.isCuda, gat_backend_ex1, indexDets, selectRows]

/-- C1 (amended): `oks_nms_vis` applies the asymmetric visibility gate
(skipping every keypoint whose visibility on the already-kept candidate
is below `vis_thr`, via `oksNmsVisBackend`) only on the
accelerator-resident path; the host-resident path invokes the ungated
`oks_nms_cpu`/`oks_nms_py` backends and its result does not depend on
`vis_thr` at all. -/
theorem C1_theorem :
    (∀ (kpts : Dets) (thr : ℚ) (σs : List ℚ) (vthr : ℚ) (dev : Option Nat),
      kpts.isContainer = true → kpts.rows ≠ [] → usesAccel kpts dev = true →
      (oks_nms_vis kpts thr σs vthr dev).log = [Backend.oksNmsVisCuda] ∧
      (oks_nms_vis kpts thr σs vthr dev).inds =
        oksNmsVisBackend kpts.rows thr vthr (σs.map (fun s => s / 10))) ∧
    (∀ (kpts : Dets) (thr : ℚ) (σs : List ℚ) (vthr vthr' : ℚ)
      (dev : Option Nat),
      kpts.isContainer = true → kpts.rows ≠ [] → usesAccel kpts dev = false →
      (oks_nms_vis kpts thr σs vthr dev).log =
        [Backend.oksNmsCpu, Backend.oksNmsPy] ∧
      (oks_nms_vis kpts thr σs vthr dev).inds =
        oksNmsBackend kpts.rows thr (σs.map (fun s => s / 10)) ∧
      oks_nms_vis kpts thr σs vthr dev = oks_nms_vis kpts thr σs vthr' dev) := by
  constructor
  · intro kpts thr σs vthr dev hc hne hacc
    cases kpts with
    | other ty => simp [Dets.isContainer] at hc
    | tensor t =>
        have hlen : t.data.length ≠ 0 := by
          simpa [Dets.rows, List.length_eq_zero] using hne
        have hcuda : t.device.isCuda = true := by simpa [usesAccel] using hacc
        simp [oks_nms_vis, toTensor, CallOut.inds, Inds.toList, Dets.rows,
          hlen, hcuda]
    | ndarray a =>
        have hlen : a.data.length ≠ 0 := by
          simpa [Dets.rows, List.length_eq_zero] using hne
        cases dev with
        | none => simp [usesAccel] at hacc
        | some i =>
            simp [oks_nms_vis, toTensor, CallOut.inds, Inds.toList, Dets.rows,
              hlen, Device.isCuda]
  · intro kpts thr σs vthr vthr' dev hc hne hacc
    cases kpts with
    | other ty => simp [Dets.isContainer] at hc
    | tensor t =>
        have hlen : t.data.length ≠ 0 := by
          simpa [Dets.rows, List.length_eq_zero] using hne
        have hcuda : t.device.isCuda = false := by simpa [usesAccel] using hacc
        simp [oks_nms_vis, toTensor, CallOut.inds, Inds.toList, Dets.rows,
          hlen, hcuda]
    | ndarray a =>
        have hlen : a.data.length ≠ 0 := by
          simpa [Dets.rows, List.length_eq_zero] using hne
        cases dev with
        | some i => simp [usesAccel] at hacc
        | none =>
            simp [oks_nms_vis, toTensor, CallOut.inds, Inds.toList, Dets.rows,
              hlen, Device.isCuda]

/-- C1 (witness): the amended theorem instantiated on an
accelerator-resident tensor and on a host-resident array. -/
theorem C1_witness :
    ((oks_nms_vis
        (Dets.tensor ⟨.cuda 0, .f32, [[1, 1, 0, 0, 1/20], [1/2, 1, 0, 0, 1]]⟩)
        (1/2) [10] (1/10) none).log = [Backend.oksNmsVisCuda] ∧
      (oks_nms_vis
        (Dets.tensor ⟨.cuda 0, .f32, [[1, 1, 0, 0, 1/20], [1/2, 1, 0, 0, 1]]⟩)
        (1/2) [10] (1/10) none).inds =
      oksNmsVisBackend
        (Dets.tensor ⟨.cuda 0, .f32,
          [[1, 1, 0, 0, 1/20], [1/2, 1, 0, 0, 1]]⟩).rows
        (1/2) (1/10) (List.map (fun s => s / 10) [10])) ∧
    ((oks_nms_vis
        (Dets.ndarray ⟨.f32, [[1, 1, 0, 0, 1/20], [1/2, 1, 0, 0, 1]]⟩)
        (1/2) [10] (1/10) none).log =
      [Backend.oksNmsCpu, Backend.oksNmsPy] ∧
      (oks_nms_vis
        (Dets.ndarray ⟨.f32, [[1, 1, 0, 0, 1/20], [1/2, 1, 0, 0, 1]]⟩)
        (1/2) [10] (1/10) none).inds =
      oksNmsBackend
        (Dets.ndarray ⟨.f32, [[1, 1, 0, 0, 1/20], [1/2, 1, 0, 0, 1]]⟩).rows
        (1/2) (List.map (fun s => s / 10) [10]) ∧
      oks_nms_vis
        (Dets.ndarray ⟨.f32, [[1, 1, 0, 0, 1/20], [1/2, 1, 0, 0, 1]]⟩)
        (1/2) [10] (1/10) none =
      oks_nms_vis
        (Dets.ndarray ⟨.f32, [[1, 1, 0, 0, 1/20], [1/2, 1, 0, 0, 1]]⟩)
        (1/2) [10] (3/10) none) :=
  ⟨C1_theorem.1
      (Dets.tensor ⟨.cuda 0, .f32, [[1, 1, 0, 0, 1/20], [1/2, 1, 0, 0, 1]]⟩)
      (1/2) [10] (1/10) none rfl (by simp [Dets.rows]) rfl,
    C1_theorem.2
      (Dets.ndarray ⟨.f32, [[1, 1, 0, 0, 1/20], [1/2, 1, 0, 0, 1]]⟩)
      (1/2) [10] (1/10) (3/10) none rfl (by simp [Dets.rows]) rfl⟩

/-- On the wide pair (keypoints 2 apart, sigma 1 after scaling), OKS is
`1/3`. -/
theorem measure_sym_ex2 :
    oksMeasure [1] [1, 1, 0, 0, 1] [1/2, 1, 2, 0, 1] = 1/3 := by
  norm_num [oksMeasure, oksTermsSym, avg0, oksTerm, falloff, kptArea,
    kptList, triples]

/-- On the same pair with the unscaled sigma 10, OKS is `50/51`. -/
theorem measure_sym_ex2' :
    oksMeasure [10] [1, 1, 0, 0, 1] [1/2, 1, 2, 0, 1] = 50/51 := by
  norm_num [oksMeasure, oksTermsSym, avg0, oksTerm, falloff, kptArea,
    kptList, triples]

theorem sort_ex2 :
    sortDesc kptScore
      ([[1, 1, 0, 0, 1], [1/2, 1, 2, 0, 1]] : List (List ℚ)).enum =
    [(0, [1, 1, 0, 0, 1]), (1, [1/2, 1, 2, 0, 1])] := by
  norm_num [List.enum, sortDesc, insertDesc, kptScore]

theorem backend_ex2 :
    oksNmsBackend [[1, 1, 0, 0, 1], [1/2, 1, 2, 0, 1]] (1/2) [1] = [0, 1] := by
  rw [oksNmsBackend, greedy, sort_ex2]
  norm_num [greedyFuel, pruneOver, measure_sym_ex2]

theorem backend_ex2' :
    oksNmsBackend [[1, 1, 0, 0, 1], [1/2, 1, 2, 0, 1]] (1/2) [10] = [0] := by
  rw [oksNmsBackend, greedy, sort_ex2]
  norm_num [greedyFuel, pruneOver, measure_sym_ex2']

theorem oks_scaled_ex2 :
    oks_nms (Dets.ndarray ⟨.f32, [[1, 1, 0, 0, 1], [1/2, 1, 2, 0, 1]]⟩)
        (1/2) [10] none =
      ⟨.ok (.ndarray ⟨.f32, [[1, 1, 0, 0, 1], [1/2, 1, 2, 0, 1]]⟩, .np [0, 1]),
       [Backend.oksNmsCpu, Backend.oksNmsPy]⟩ := by
  have h : List.map (fun s => s / 10) [(10:ℚ)] = [1] := by norm_num
  simp only [oks_nms, oks_nms_def2, toTensor, h]
  norm_num [Device.isCuda, backend_ex2, indexDets, selectRows]

theorem oks_unscaled_ex2 :
    oks_nms_noscale
        (Dets.ndarray ⟨.f32, [[1, 1, 0, 0, 1], [1/2, 1, 2, 0, 1]]⟩)
        (1/2) [10] none =
      ⟨.ok (.ndarray ⟨.f32, [[1, 1, 0, 0, 1]]⟩, .np [0]),
       [Backend.oksNmsCpu, Backend.oksNmsPy]⟩ := by
  simp only [oks_nms_noscale, toTensor]
  norm_num [Device.isCuda, backend_ex2', indexDets, selectRows]

/-- C10: both `oks_nms` definitions and `oks_nms_vis` divide every
supplied per-keypoint sigma by 10 before the backend dispatch — each
call equals the dispatch-only variant applied to `sigmas.map (· / 10)`
— and the rescaling is observable: on a concrete input the call
disagrees with the dispatch applied to the sigmas as given. -/
theorem C10_theorem :
    (∀ (kpts : Dets) (thr : ℚ) (σs : List ℚ) (dev : Option Nat),
      oks_nms_def1 kpts thr σs dev =
        oks_nms_noscale kpts thr (σs.map (fun s => s / 10)) dev ∧
      oks_nms kpts thr σs dev =
        oks_nms_noscale kpts thr (σs.map (fun s => s / 10)) dev) ∧
    (∀ (kpts : Dets) (thr : ℚ) (σs : List ℚ) (vthr : ℚ) (dev : Option Nat),
      oks_nms_vis kpts thr σs vthr dev =
        oks_nms_vis_noscale kpts thr (σs.map (fun s => s / 10)) vthr dev) ∧
    oks_nms (Dets.ndarray ⟨.f32, [[1, 1, 0, 0, 1], [1/2, 1, 2, 0, 1]]⟩)
        (1/2) [10] none ≠
      oks_nms_noscale
        (Dets.ndarray ⟨.f32, [[1, 1, 0, 0, 1], [1/2, 1, 2, 0, 1]]⟩)
        (1/2) [10] none := by
  refine ⟨fun _ _ _ _ => ⟨rfl, rfl⟩, fun _ _ _ _ _ => rfl, ?_⟩
  rw [oks_scaled_ex2, oks_unscaled_ex2]
  simp

end NmsWrapper
